import Mathlib

/-!
# Verification of the `discord-rpc` IPC transport (src/src/structures/client.ts)

A shallow embedding of the transport layer of the repository:

* the frame codec used by `IpcTransport.send` (8-byte little-endian header,
  UTF-8 JSON payload) and by the `readable` handler of `IpcTransport.connect`;
* the read/dispatch cycle (`readable` handler, lines 348-421);
* `IpcTransport.close` and the `close` listener registered by `connect`
  (lines 423-426, 451-464);
* socket discovery (`pathList`, `IpcTransport.getSocket`, lines 223-336);
* the `Client.setActivity` / `Client.clearActivity` payload construction
  (lines 137-203).

JavaScript primitives the source leans on are modelled executably:
`JSON.stringify` / `JSON.parse` over an inductive `Json` type (numbers are
modelled as integers; JS floating-point specifics are outside the model),
`Buffer.from(string)` / `Buffer.prototype.toString` as UTF-8 encoding and
(lossy, replacement-character) decoding, `Buffer.readUInt32LE` /
`writeUInt32LE` as arithmetic on byte lists, and JS truthiness tests as
explicit predicates.
-/

/-! ## Characters and decimal digits -/

/-- Decimal digit test on the code point, matching `0`-`9` (JS `JSON` number
grammar). Behaviourally identical to `Char.isDigit`. -/
def isDigitChar (c : Char) : Bool := 48 ≤ c.toNat && c.toNat ≤ 57

/-- JSON insignificant whitespace (space, tab, line feed, carriage return),
as accepted by `JSON.parse`. -/
def isJsonWs (c : Char) : Bool :=
  c.toNat == 32 || c.toNat == 9 || c.toNat == 10 || c.toNat == 13

/-- The digit character for `k < 10`. -/
def digitChar (k : Nat) : Char := Char.ofNat (48 + k)

theorem toNat_ofNat_valid {n : Nat} (h : n.isValidChar) :
    (Char.ofNat n).toNat = n := by
  rw [Char.ofNat, dif_pos h]
  rfl

theorem toNat_digitChar {k : Nat} (h : k < 10) : (digitChar k).toNat = 48 + k := by
  have : (48 + k).isValidChar := Or.inl (by omega)
  simpa [digitChar] using toNat_ofNat_valid this

theorem char_eq_of_toNat_eq {c d : Char} (h : c.toNat = d.toNat) : c = d :=
  Char.eq_of_val_eq (UInt32.toNat.inj h)

/-- Decimal digits of `n`, most significant first, with an explicit fuel so
that the definition is structurally recursive (fuel `n` always suffices). -/
def natToDigitsGo : Nat → Nat → List Char
  | 0, n => [digitChar (n % 10)]
  | fuel + 1, n =>
    if n < 10 then [digitChar n]
    else natToDigitsGo fuel (n / 10) ++ [digitChar (n % 10)]

/-- The decimal representation of a natural number, as produced by
`JSON.stringify` for a non-negative integer-valued number. -/
def natToDigits (n : Nat) : List Char := natToDigitsGo n n

/-- Value of a digit string (the usual left fold), used by the JSON parser. -/
def digitsToNat (ds : List Char) : Nat :=
  ds.foldl (fun a c => a * 10 + (c.toNat - 48)) 0

theorem natToDigitsGo_ne_nil (fuel n : Nat) : natToDigitsGo fuel n ≠ [] := by
  cases fuel with
  | zero => simp [natToDigitsGo]
  | succ fuel =>
    rw [natToDigitsGo]
    split <;> simp

theorem natToDigitsGo_all_digit (fuel n : Nat) :
    ∀ c ∈ natToDigitsGo fuel n, isDigitChar c = true := by
  induction fuel generalizing n with
  | zero =>
    intro c hc
    simp [natToDigitsGo] at hc
    subst hc
    have hm : n % 10 < 10 := by omega
    simp [isDigitChar, toNat_digitChar hm]
    omega
  | succ fuel ih =>
    intro c hc
    rw [natToDigitsGo] at hc
    split at hc
    · next hn =>
      simp at hc
      subst hc
      simp [isDigitChar, toNat_digitChar hn]
      omega
    · simp at hc
      rcases hc with hc | hc
      · exact ih _ _ hc
      · subst hc
        have hm : n % 10 < 10 := by omega
        simp [isDigitChar, toNat_digitChar hm]
        omega

theorem natToDigits_all_digit (n : Nat) :
    ∀ c ∈ natToDigits n, isDigitChar c = true :=
  natToDigitsGo_all_digit n n

theorem digitsToNat_append_single (ds : List Char) (c : Char) :
    digitsToNat (ds ++ [c]) = digitsToNat ds * 10 + (c.toNat - 48) := by
  simp [digitsToNat, List.foldl_append]

theorem digitsToNat_natToDigitsGo {fuel n : Nat} (h : n ≤ fuel) :
    digitsToNat (natToDigitsGo fuel n) = n := by
  induction fuel generalizing n with
  | zero =>
    have hn : n = 0 := by omega
    subst hn
    have h0 : (0 : Nat) < 10 := by omega
    simp [natToDigitsGo, digitsToNat, toNat_digitChar h0]
  | succ fuel ih =>
    rw [natToDigitsGo]
    split
    · next hlt => simp [digitsToNat, toNat_digitChar hlt]
    · next hge =>
      have hm : n % 10 < 10 := by omega
      rw [digitsToNat_append_single, ih (by omega), toNat_digitChar hm]
      omega

theorem digitsToNat_natToDigits (n : Nat) : digitsToNat (natToDigits n) = n :=
  digitsToNat_natToDigitsGo (Nat.le_refl n)

theorem natToDigits_head_digit (n : Nat) :
    ∃ c r, natToDigits n = c :: r ∧ isDigitChar c = true := by
  cases h : natToDigits n with
  | nil => exact absurd h (natToDigitsGo_ne_nil n n)
  | cons c r =>
    refine ⟨c, r, rfl, ?_⟩
    exact natToDigits_all_digit n c (by rw [h]; simp)

/-! ## The JSON value model

`Json` models the JSON-serializable JavaScript values exchanged by the
transport.  Numbers are modelled as integers (every numeric payload the
client builds — operation codes, `pid`, version — is an integer; the JS
floating-point number type is outside the model).  Lean strings are kept as
`List Char` so list reasoning applies directly. -/

inductive Json where
  | null
  | bool (b : Bool)
  | num (n : Int)
  | str (s : List Char)
  | arr (elems : List Json)
  | obj (fields : List (List Char × Json))

/-- JS truthiness of a `Json` value: `false`, `0`, `""` and `null` are falsy,
every other value (including `[]` and `{}`, which are objects) is truthy. -/
def jsTruthyJson : Json → Bool
  | .null => false
  | .bool b => b
  | .num n => n != 0
  | .str s => s != []
  | .arr _ => true
  | .obj _ => true

/-! ## `JSON.stringify` -/

/-- String escaping as produced by `JSON.stringify`: quote and backslash are
escaped with a backslash (other characters are emitted verbatim). -/
def escapeChar (c : Char) : List Char :=
  if c = '"' ∨ c = '\\' then ['\\', c] else [c]

def escapeList (s : List Char) : List Char := s.flatMap escapeChar

/-- A JSON string literal: opening quote, escaped body, closing quote. -/
def quoteChars (s : List Char) : List Char := '"' :: escapeList s ++ ['"']

mutual
/-- `JSON.stringify`, producing the canonical (whitespace-free) text. -/
def stringifyChars : Json → List Char
  | .null => "null".data
  | .bool true => "true".data
  | .bool false => "false".data
  | .num (Int.ofNat m) => natToDigits m
  | .num (Int.negSucc m) => '-' :: natToDigits (m + 1)
  | .str s => quoteChars s
  | .arr [] => "[]".data
  | .arr (x :: xs) => '[' :: (stringifyChars x ++ stringifyItems xs) ++ [']']
  | .obj [] => "{}".data
  | .obj (f :: fs) => '{' :: (stringifyField f ++ stringifyFieldsRest fs) ++ ['}']

def stringifyItems : List Json → List Char
  | [] => []
  | x :: xs => ',' :: stringifyChars x ++ stringifyItems xs

def stringifyField : List Char × Json → List Char
  | (k, v) => quoteChars k ++ ':' :: stringifyChars v

def stringifyFieldsRest : List (List Char × Json) → List Char
  | [] => []
  | f :: fs => ',' :: stringifyField f ++ stringifyFieldsRest fs
end

/-! ## `JSON.parse`

A recursive-descent parser over `List Char` with an explicit recursion
budget (`fuel`), so that all definitions are structurally recursive and
reduce inside the kernel.  `jsonParse` supplies a budget that always
suffices (one unit per value node; a text of length `n` holds fewer than
`n + 1` nodes). -/

def skipWs : List Char → List Char
  | [] => []
  | c :: r => if isJsonWs c then skipWs r else c :: r

/-- Scanner for the body of a string literal; `esc` records that the
previous character was an unconsumed backslash.  An unescaped quote closes
the literal; after a backslash only the escapes `JSON.stringify` emits
(quote and backslash) are recognised. -/
def strBody : Bool → List Char → Option (List Char × List Char)
  | _, [] => none
  | true, c :: r =>
    if c = '"' ∨ c = '\\' then (strBody false r).map fun p => (c :: p.1, p.2)
    else none
  | false, c :: r =>
    if c = '"' then some ([], r)
    else if c = '\\' then strBody true r
    else (strBody false r).map fun p => (c :: p.1, p.2)

/-- Parse the body of a string literal after the opening quote, returning
the unescaped characters and the input after the closing quote. -/
def parseStrChars : List Char → Option (List Char × List Char) :=
  strBody false

/-- Parse a non-empty run of decimal digits. -/
def parseDigits (cs : List Char) : Option (Nat × List Char) :=
  match cs with
  | c :: _ =>
    if isDigitChar c then
      some (digitsToNat (cs.takeWhile isDigitChar), cs.dropWhile isDigitChar)
    else none
  | [] => none

mutual
def parseVal : Nat → List Char → Option (Json × List Char)
  | 0, _ => none
  | fuel + 1, cs =>
    match skipWs cs with
    | [] => none
    | c :: r =>
      if c = 'n' then
        match r with
        | 'u' :: 'l' :: 'l' :: r2 => some (.null, r2)
        | _ => none
      else if c = 't' then
        match r with
        | 'r' :: 'u' :: 'e' :: r2 => some (.bool true, r2)
        | _ => none
      else if c = 'f' then
        match r with
        | 'a' :: 'l' :: 's' :: 'e' :: r2 => some (.bool false, r2)
        | _ => none
      else if c = '"' then
        (parseStrChars r).map fun p => (.str p.1, p.2)
      else if c = '[' then
        match skipWs r with
        | c2 :: r2 =>
          if c2 = ']' then some (.arr [], r2)
          else (parseItems fuel r).map fun p => (.arr p.1, p.2)
        | [] => none
      else if c = '{' then
        match skipWs r with
        | c2 :: r2 =>
          if c2 = '}' then some (.obj [], r2)
          else (parseFields fuel r).map fun p => (.obj p.1, p.2)
        | [] => none
      else if c = '-' then
        match parseDigits r with
        | some (m, r2) => some (.num (-(m : Int)), r2)
        | none => none
      else if isDigitChar c then
        match parseDigits (c :: r) with
        | some (m, r2) => some (.num (m : Int), r2)
        | none => none
      else none

/-- Parse the comma-separated elements of a non-empty array, consuming the
closing bracket. -/
def parseItems : Nat → List Char → Option (List Json × List Char)
  | 0, _ => none
  | fuel + 1, cs =>
    (parseVal fuel cs).bind fun p =>
      match skipWs p.2 with
      | c :: r2 =>
        if c = ',' then (parseItems fuel r2).map fun q => (p.1 :: q.1, q.2)
        else if c = ']' then some ([p.1], r2)
        else none
      | [] => none

/-- Parse the members of a non-empty object, consuming the closing brace. -/
def parseFields : Nat → List Char → Option (List (List Char × Json) × List Char)
  | 0, _ => none
  | fuel + 1, cs =>
    match skipWs cs with
    | c :: r =>
      if c = '"' then
        (parseStrChars r).bind fun pk =>
          match skipWs pk.2 with
          | c3 :: r3 =>
            if c3 = ':' then
              (parseVal fuel r3).bind fun pv =>
                match skipWs pv.2 with
                | c5 :: r5 =>
                  if c5 = ',' then
                    (parseFields fuel r5).map fun q => ((pk.1, pv.1) :: q.1, q.2)
                  else if c5 = '}' then some ([(pk.1, pv.1)], r5)
                  else none
                | [] => none
            else none
          | [] => none
      else none
    | [] => none
end

/-- `JSON.parse`: parse one JSON value, requiring only trailing whitespace
after it; `none` models a thrown `SyntaxError`. -/
def jsonParse (cs : List Char) : Option Json :=
  match parseVal (cs.length + 1) cs with
  | some (j, rest) => if skipWs rest = [] then some j else none
  | none => none

/-! ## Parser / serializer round trip -/

/-- `rest` does not begin with a decimal digit (so a number ending right
before `rest` cannot absorb characters of `rest`). -/
def headNotDigit : List Char → Bool
  | [] => true
  | c :: _ => !isDigitChar c

theorem skipWs_cons_of_not_ws {c : Char} (r : List Char)
    (h : isJsonWs c = false) : skipWs (c :: r) = c :: r := by
  simp [skipWs, h]

theorem takeWhile_append_of_all {p : Char → Bool} {l r : List Char}
    (hl : ∀ c ∈ l, p c = true) (hr : ∀ c rr, r = c :: rr → p c = false) :
    (l ++ r).takeWhile p = l := by
  induction l with
  | nil =>
    cases r with
    | nil => rfl
    | cons c rr => simp [List.takeWhile, hr c rr rfl]
  | cons a l ih =>
    simp [List.takeWhile, hl a (by simp)]
    exact ih (fun c hc => hl c (by simp [hc]))

theorem dropWhile_append_of_all {p : Char → Bool} {l r : List Char}
    (hl : ∀ c ∈ l, p c = true) (hr : ∀ c rr, r = c :: rr → p c = false) :
    (l ++ r).dropWhile p = r := by
  induction l with
  | nil =>
    cases r with
    | nil => rfl
    | cons c rr => simp [List.dropWhile, hr c rr rfl]
  | cons a l ih =>
    simp [List.dropWhile, hl a (by simp)]
    exact ih (fun c hc => hl c (by simp [hc]))

theorem parseDigits_natToDigits (m : Nat) (rest : List Char)
    (hrest : headNotDigit rest = true) :
    parseDigits (natToDigits m ++ rest) = some (m, rest) := by
  obtain ⟨c, dr, hcd, hdig⟩ := natToDigits_head_digit m
  have hrest' : ∀ c rr, rest = c :: rr → isDigitChar c = false := by
    intro c rr h
    subst h
    simpa [headNotDigit] using hrest
  have htake : (natToDigits m ++ rest).takeWhile isDigitChar = natToDigits m :=
    takeWhile_append_of_all (natToDigits_all_digit m) hrest'
  have hdrop : (natToDigits m ++ rest).dropWhile isDigitChar = rest :=
    dropWhile_append_of_all (natToDigits_all_digit m) hrest'
  rw [hcd] at htake hdrop ⊢
  simp only [List.cons_append, parseDigits, hdig, if_true]
  rw [← List.cons_append, htake, hdrop, ← hcd, digitsToNat_natToDigits]

theorem parseStrChars_escape (s : List Char) (rest : List Char) :
    parseStrChars (escapeList s ++ '"' :: rest) = some (s, rest) := by
  induction s with
  | nil => simp [parseStrChars, escapeList, strBody]
  | cons c s ih =>
    by_cases hc : c = '"' ∨ c = '\\'
    · have he : escapeList (c :: s) = '\\' :: c :: escapeList s := by
        simp [escapeList, escapeChar, hc]
      rw [parseStrChars] at ih ⊢
      rw [he]
      simp [strBody, hc, ih]
    · have hq : ¬(c = '"') := fun h => hc (Or.inl h)
      have hb : ¬(c = '\\') := fun h => hc (Or.inr h)
      have he : escapeList (c :: s) = c :: escapeList s := by
        simp [escapeList, escapeChar, hc]
      rw [parseStrChars] at ih ⊢
      rw [he]
      simp [strBody, hq, hb, ih]

mutual
/-- Number of value nodes of a JSON value: a lower bound for the parser
budget needed to re-read its serialisation. -/
def jsize : Json → Nat
  | .arr xs => 1 + jsizeList xs
  | .obj fs => 1 + jsizeFields fs
  | _ => 1

def jsizeList : List Json → Nat
  | [] => 0
  | x :: xs => 1 + jsize x + jsizeList xs

def jsizeFields : List (List Char × Json) → Nat
  | [] => 0
  | f :: fs => 1 + jsize f.2 + jsizeFields fs
end

theorem jsize_pos (j : Json) : 1 ≤ jsize j := by
  cases j <;> simp [jsize]

theorem digit_not_special {c : Char} (h : isDigitChar c = true) :
    c ≠ 'n' ∧ c ≠ 't' ∧ c ≠ 'f' ∧ c ≠ '"' ∧ c ≠ '[' ∧ c ≠ '{' ∧ c ≠ '-' ∧
      isJsonWs c = false := by
  have hn : 48 ≤ c.toNat ∧ c.toNat ≤ 57 := by simpa [isDigitChar] using h
  refine ⟨?_, ?_, ?_, ?_, ?_, ?_, ?_, ?_⟩
  · intro he; subst he; revert hn; decide
  · intro he; subst he; revert hn; decide
  · intro he; subst he; revert hn; decide
  · intro he; subst he; revert hn; decide
  · intro he; subst he; revert hn; decide
  · intro he; subst he; revert hn; decide
  · intro he; subst he; revert hn; decide
  · simp [isJsonWs]; omega

theorem digit_not_ws {c : Char} (h : isDigitChar c = true) :
    isJsonWs c = false := (digit_not_special h).2.2.2.2.2.2.2

/-- The first character of a serialised JSON value is never whitespace and
never a closing bracket or brace. -/
theorem stringify_head (j : Json) :
    ∃ c r, stringifyChars j = c :: r ∧ (isJsonWs c = false ∧ c ≠ ']' ∧ c ≠ '}') := by
  cases j with
  | null => exact ⟨'n', _, rfl, by decide⟩
  | bool b => cases b <;> exact ⟨_, _, rfl, by decide⟩
  | num n =>
    cases n with
    | ofNat m =>
      obtain ⟨c, r, hcr, hdig⟩ := natToDigits_head_digit m
      have hb : 48 ≤ c.toNat ∧ c.toNat ≤ 57 := by simpa [isDigitChar] using hdig
      refine ⟨c, r, by simpa [stringifyChars] using hcr, digit_not_ws hdig, ?_, ?_⟩
      all_goals
        intro he
        rw [he] at hb
        revert hb
        decide
    | negSucc m => exact ⟨'-', _, rfl, by decide⟩
  | str s =>
    exact ⟨'"', escapeList s ++ ['"'], by simp [stringifyChars, quoteChars], by decide⟩
  | arr xs => cases xs <;> exact ⟨'[', _, rfl, by decide⟩
  | obj fs => cases fs <;> exact ⟨'{', _, rfl, by decide⟩

theorem parse_stringify (fuel : Nat) :
    (∀ j rest, headNotDigit rest = true → jsize j ≤ fuel →
      parseVal fuel (stringifyChars j ++ rest) = some (j, rest)) ∧
    (∀ x xs rest, jsizeList (x :: xs) ≤ fuel →
      parseItems fuel (stringifyChars x ++ (stringifyItems xs ++ ']' :: rest)) =
        some (x :: xs, rest)) ∧
    (∀ k v fs rest, jsizeFields ((k, v) :: fs) ≤ fuel →
      parseFields fuel (stringifyField (k, v) ++ (stringifyFieldsRest fs ++ '}' :: rest)) =
        some ((k, v) :: fs, rest)) := by
  induction fuel with
  | zero =>
    refine ⟨?_, ?_, ?_⟩
    · intro j rest _ hs
      have := jsize_pos j
      omega
    · intro x xs rest hs
      exfalso
      simp [jsizeList] at hs
    · intro k v fs rest hs
      exfalso
      simp [jsizeFields] at hs
  | succ fuel ih =>
    obtain ⟨ihV, ihI, ihF⟩ := ih
    refine ⟨?_, ?_, ?_⟩
    · intro j rest hrest hs
      cases j with
      | null => rfl
      | bool b => cases b <;> rfl
      | num n =>
        cases n with
        | ofNat m =>
          obtain ⟨c, dr, hcd, hdig⟩ := natToDigits_head_digit m
          obtain ⟨hn, ht, hf, hq, hlb, hob, hmn, hws⟩ := digit_not_special hdig
          have hstr : stringifyChars (Json.num (Int.ofNat m)) = natToDigits m := rfl
          rw [hstr, hcd, List.cons_append, parseVal,
            skipWs_cons_of_not_ws _ hws]
          simp only [hn, ht, hf, hq, hlb, hob, hmn, hdig, if_neg, if_false,
            ite_false, ite_true, if_true]
          rw [← List.cons_append, ← hcd, parseDigits_natToDigits m rest hrest]
          rfl
        | negSucc m =>
          have hstr : stringifyChars (Json.num (Int.negSucc m)) =
              '-' :: natToDigits (m + 1) := rfl
          rw [hstr, List.cons_append, parseVal,
            skipWs_cons_of_not_ws _ (by decide)]
          simp [parseDigits_natToDigits (m + 1) rest hrest, Int.negSucc_eq]
      | str s =>
        have hstr : stringifyChars (Json.str s) ++ rest =
            '"' :: (escapeList s ++ '"' :: rest) := by
          simp [stringifyChars, quoteChars]
        rw [hstr, parseVal, skipWs_cons_of_not_ws _ (by decide)]
        simp [parseStrChars_escape]
      | arr xs =>
        cases xs with
        | nil => rfl
        | cons x xs =>
          have hstr : stringifyChars (Json.arr (x :: xs)) ++ rest =
              '[' :: (stringifyChars x ++ (stringifyItems xs ++ ']' :: rest)) := by
            simp [stringifyChars]
          rw [hstr, parseVal, skipWs_cons_of_not_ws _ (by decide)]
          obtain ⟨c, r, hcr, hws, hnrb, hnbr⟩ := stringify_head x
          have hsz : jsizeList (x :: xs) ≤ fuel := by
            simp [jsize] at hs
            omega
          have hI := ihI x xs rest hsz
          have hsw2 : skipWs (stringifyChars x ++ (stringifyItems xs ++ ']' :: rest)) =
              c :: (r ++ (stringifyItems xs ++ ']' :: rest)) := by
            rw [hcr, List.cons_append, skipWs_cons_of_not_ws _ hws]
          simp [hsw2, hnrb, hI]
      | obj fs =>
        cases fs with
        | nil => rfl
        | cons f fs =>
          obtain ⟨k, v⟩ := f
          have hstr : stringifyChars (Json.obj ((k, v) :: fs)) ++ rest =
              '{' :: (stringifyField (k, v) ++ (stringifyFieldsRest fs ++ '}' :: rest)) := by
            simp [stringifyChars]
          rw [hstr, parseVal, skipWs_cons_of_not_ws _ (by decide)]
          have hsz : jsizeFields ((k, v) :: fs) ≤ fuel := by
            simp [jsize] at hs
            omega
          have hF := ihF k v fs rest hsz
          have hsw2 : skipWs (stringifyField (k, v) ++ (stringifyFieldsRest fs ++ '}' :: rest)) =
              '"' :: (escapeList k ++ ('"' :: (':' :: (stringifyChars v ++ (stringifyFieldsRest fs ++ '}' :: rest))))) := by
            have hkey : stringifyField (k, v) ++ (stringifyFieldsRest fs ++ '}' :: rest) =
                '"' :: (escapeList k ++ ('"' :: (':' :: (stringifyChars v ++ (stringifyFieldsRest fs ++ '}' :: rest))))) := by
              simp [stringifyField, quoteChars]
            rw [hkey, skipWs_cons_of_not_ws _ (by decide)]
          simp [hsw2, hF]
    · intro x xs rest hs
      rw [parseItems]
      have hrest : headNotDigit (stringifyItems xs ++ ']' :: rest) = true := by
        cases xs with
        | nil => rfl
        | cons y ys => rfl
      have hszx : jsize x ≤ fuel := by
        simp [jsizeList] at hs
        omega
      rw [ihV x (stringifyItems xs ++ ']' :: rest) hrest hszx]
      cases xs with
      | nil =>
        simp [stringifyItems, skipWs_cons_of_not_ws _ (by decide : isJsonWs ']' = false)]
      | cons y ys =>
        have hys : stringifyItems (y :: ys) ++ ']' :: rest =
            ',' :: (stringifyChars y ++ (stringifyItems ys ++ ']' :: rest)) := by
          simp [stringifyItems]
        have hsz : jsizeList (y :: ys) ≤ fuel := by
          simp [jsizeList] at hs ⊢
          omega
        have hI := ihI y ys rest hsz
        have hsw : skipWs (stringifyItems (y :: ys) ++ ']' :: rest) =
            ',' :: (stringifyChars y ++ (stringifyItems ys ++ ']' :: rest)) := by
          rw [hys, skipWs_cons_of_not_ws _ (by decide)]
        simp [hsw, hI]
    · intro k v fs rest hs
      rw [parseFields]
      have hkey : stringifyField (k, v) ++ (stringifyFieldsRest fs ++ '}' :: rest) =
          '"' :: (escapeList k ++ '"' :: (':' :: (stringifyChars v ++ (stringifyFieldsRest fs ++ '}' :: rest)))) := by
        simp [stringifyField, quoteChars]
      rw [hkey, skipWs_cons_of_not_ws _ (by decide)]
      have hrest : headNotDigit (stringifyFieldsRest fs ++ '}' :: rest) = true := by
        cases fs with
        | nil => rfl
        | cons g gs => rfl
      have hszv : jsize v ≤ fuel := by
        simp [jsizeFields] at hs
        omega
      have hV := ihV v (stringifyFieldsRest fs ++ '}' :: rest) hrest hszv
      cases fs with
      | nil =>
        simp only [stringifyFieldsRest, List.nil_append] at hV
        simp [parseStrChars_escape, skipWs_cons_of_not_ws _ (by decide : isJsonWs ':' = false),
          hV, stringifyFieldsRest, skipWs_cons_of_not_ws _ (by decide : isJsonWs '}' = false)]
      | cons g gs =>
        obtain ⟨k2, v2⟩ := g
        have hgs : stringifyFieldsRest ((k2, v2) :: gs) ++ '}' :: rest =
            ',' :: (stringifyField (k2, v2) ++ (stringifyFieldsRest gs ++ '}' :: rest)) := by
          simp [stringifyFieldsRest]
        have hsz : jsizeFields ((k2, v2) :: gs) ≤ fuel := by
          simp [jsizeFields] at hs ⊢
          omega
        have hF := ihF k2 v2 gs rest hsz
        have hsw : skipWs (stringifyFieldsRest ((k2, v2) :: gs) ++ '}' :: rest) =
            ',' :: (stringifyField (k2, v2) ++ (stringifyFieldsRest gs ++ '}' :: rest)) := by
          rw [hgs, skipWs_cons_of_not_ws _ (by decide)]
        simp [parseStrChars_escape, skipWs_cons_of_not_ws _ (by decide : isJsonWs ':' = false),
          hV, hsw, hF]

theorem jsize_le_stringify_length (fuel : Nat) :
    (∀ j, jsize j ≤ fuel → jsize j ≤ (stringifyChars j).length) ∧
    (∀ xs, jsizeList xs ≤ fuel → jsizeList xs ≤ (stringifyItems xs).length) ∧
    (∀ fs, jsizeFields fs ≤ fuel → jsizeFields fs ≤ (stringifyFieldsRest fs).length) := by
  induction fuel with
  | zero =>
    refine ⟨?_, ?_, ?_⟩
    · intro j hj
      have := jsize_pos j
      omega
    · intro xs hxs
      cases xs with
      | nil => simp [jsizeList, stringifyItems]
      | cons y ys => exfalso; simp [jsizeList] at hxs
    · intro fs hfs
      cases fs with
      | nil => simp [jsizeFields, stringifyFieldsRest]
      | cons g gs => exfalso; simp [jsizeFields] at hfs
  | succ fuel ih =>
    obtain ⟨ihV, ihI, ihF⟩ := ih
    refine ⟨?_, ?_, ?_⟩
    · intro j hj
      cases j with
      | null => simp [jsize, stringifyChars]
      | bool b => cases b <;> simp [jsize, stringifyChars]
      | num n =>
        cases n with
        | ofNat m =>
          have := natToDigitsGo_ne_nil m m
          have : 1 ≤ (natToDigits m).length := by
            cases h : natToDigits m with
            | nil => exact absurd h (natToDigitsGo_ne_nil m m)
            | cons c r => simp
          simp [jsize, stringifyChars, natToDigits] at this ⊢
          omega
        | negSucc m => simp [jsize, stringifyChars]
      | str s => simp [jsize, stringifyChars, quoteChars]
      | arr xs =>
        cases xs with
        | nil => simp [jsize, jsizeList, stringifyChars]
        | cons x xs =>
          have h1 : jsize x ≤ fuel := by simp [jsize, jsizeList] at hj; omega
          have h2 : jsizeList xs ≤ fuel := by simp [jsize, jsizeList] at hj; omega
          have hA := ihV x h1
          have hB := ihI xs h2
          simp only [jsize, jsizeList, stringifyChars, List.length_append,
            List.length_cons] at hA hB ⊢
          omega
      | obj fs =>
        cases fs with
        | nil => simp [jsize, jsizeFields, stringifyChars]
        | cons f fs =>
          obtain ⟨k, v⟩ := f
          have h1 : jsize v ≤ fuel := by simp [jsize, jsizeFields] at hj; omega
          have h2 : jsizeFields fs ≤ fuel := by simp [jsize, jsizeFields] at hj; omega
          have hA := ihV v h1
          have hB := ihF fs h2
          simp only [jsize, jsizeFields, stringifyChars, stringifyField, quoteChars,
            List.length_append, List.length_cons] at hA hB ⊢
          omega
    · intro xs hxs
      cases xs with
      | nil => simp [jsizeList, stringifyItems]
      | cons y ys =>
        have h1 : jsize y ≤ fuel := by simp [jsizeList] at hxs; omega
        have h2 : jsizeList ys ≤ fuel := by simp [jsizeList] at hxs; omega
        have hA := ihV y h1
        have hB := ihI ys h2
        simp only [jsizeList, stringifyItems, List.length_append, List.length_cons] at hA hB ⊢
        omega
    · intro fs hfs
      cases fs with
      | nil => simp [jsizeFields, stringifyFieldsRest]
      | cons g gs =>
        obtain ⟨k, v⟩ := g
        have h1 : jsize v ≤ fuel := by simp [jsizeFields] at hfs; omega
        have h2 : jsizeFields gs ≤ fuel := by simp [jsizeFields] at hfs; omega
        have hA := ihV v h1
        have hB := ihF gs h2
        simp only [jsizeFields, stringifyFieldsRest, stringifyField, quoteChars,
          List.length_append, List.length_cons] at hA hB ⊢
        omega

/-- `JSON.parse ∘ JSON.stringify = id` on the modelled JSON values. -/
theorem jsonParse_stringify (j : Json) : jsonParse (stringifyChars j) = some j := by
  have hlen : jsize j ≤ (stringifyChars j).length :=
    (jsize_le_stringify_length (jsize j)).1 j (Nat.le_refl _)
  have h := (parse_stringify ((stringifyChars j).length + 1)).1 j [] rfl (by omega)
  rw [List.append_nil] at h
  rw [jsonParse, h]
  rfl

/-! ## UTF-8 encoding and (lossy) decoding

`Buffer.from(string)` encodes UTF-8; `Buffer.prototype.toString()` decodes
UTF-8, replacing invalid sequences with U+FFFD rather than throwing. -/

/-- UTF-8 encoding of one scalar value (RFC 3629). -/
def utf8EncodeChar (c : Char) : List Nat :=
  if c.toNat < 128 then [c.toNat]
  else if c.toNat < 2048 then [192 + c.toNat / 64, 128 + c.toNat % 64]
  else if c.toNat < 65536 then
    [224 + c.toNat / 4096, 128 + c.toNat / 64 % 64, 128 + c.toNat % 64]
  else
    [240 + c.toNat / 262144, 128 + c.toNat / 4096 % 64, 128 + c.toNat / 64 % 64,
      128 + c.toNat % 64]

def utf8Encode (s : List Char) : List Nat := s.flatMap utf8EncodeChar

/-- U+FFFD, the replacement character. -/
def replChar : Char := Char.ofNat 65533

/-- One step of the lossy UTF-8 decoder: from the lead byte and the bytes
after it, the decoded character and the number of additional bytes consumed
(`l.getD i 0` reads byte `i`, the default failing every continuation-byte
bound).  An invalid lead byte or continuation yields U+FFFD, consuming only
the lead byte (the replacement policy of a lossy decoder). -/
def utf8Step (b0 : Nat) (rest : List Nat) : Char × Nat :=
  if b0 < 128 then (Char.ofNat b0, 0)
  else if b0 < 194 then (replChar, 0)
  else if b0 < 224 then
    if 128 ≤ rest.getD 0 0 ∧ rest.getD 0 0 < 192 then
      (Char.ofNat ((b0 - 192) * 64 + (rest.getD 0 0 - 128)), 1)
    else (replChar, 0)
  else if b0 < 240 then
    if (128 ≤ rest.getD 0 0 ∧ rest.getD 0 0 < 192) ∧
        (128 ≤ rest.getD 1 0 ∧ rest.getD 1 0 < 192) ∧
        (b0 = 224 → 160 ≤ rest.getD 0 0) ∧ (b0 = 237 → rest.getD 0 0 < 160) then
      (Char.ofNat ((b0 - 224) * 4096 + (rest.getD 0 0 - 128) * 64 + (rest.getD 1 0 - 128)), 2)
    else (replChar, 0)
  else if b0 < 245 then
    if (128 ≤ rest.getD 0 0 ∧ rest.getD 0 0 < 192) ∧
        (128 ≤ rest.getD 1 0 ∧ rest.getD 1 0 < 192) ∧
        (128 ≤ rest.getD 2 0 ∧ rest.getD 2 0 < 192) ∧
        (b0 = 240 → 144 ≤ rest.getD 0 0) ∧ (b0 = 244 → rest.getD 0 0 < 144) then
      (Char.ofNat ((b0 - 240) * 262144 + (rest.getD 0 0 - 128) * 4096 +
        (rest.getD 1 0 - 128) * 64 + (rest.getD 2 0 - 128)), 3)
    else (replChar, 0)
  else (replChar, 0)

/-- The lossy UTF-8 decoder, with fuel so that the recursion is structural
(one unit per decoded character; the byte count always suffices). -/
def utf8DecodeGo : Nat → List Nat → List Char
  | 0, _ => []
  | _ + 1, [] => []
  | fuel + 1, b :: rest =>
    (utf8Step b rest).1 :: utf8DecodeGo fuel (rest.drop (utf8Step b rest).2)

/-- `Buffer.prototype.toString("utf8")` on a byte list. -/
def utf8Decode (l : List Nat) : List Char := utf8DecodeGo l.length l

theorem char_valid_nat (c : Char) :
    c.toNat < 55296 ∨ (57343 < c.toNat ∧ c.toNat < 1114112) := c.valid

theorem utf8DecodeGo_encodeChar (fuel : Nat) (c : Char) (rest : List Nat) :
    utf8DecodeGo (fuel + 1) (utf8EncodeChar c ++ rest) =
      c :: utf8DecodeGo fuel rest := by
  have hval := char_valid_nat c
  by_cases h1 : c.toNat < 128
  · rw [utf8EncodeChar, if_pos h1, List.singleton_append, utf8DecodeGo]
    have hstep : utf8Step c.toNat rest = (c, 0) := by
      rw [utf8Step, if_pos h1, Char.ofNat_toNat]
    rw [hstep]
    simp
  · by_cases h2 : c.toNat < 2048
    · rw [utf8EncodeChar, if_neg h1, if_pos h2]
      simp only [List.cons_append, List.nil_append]
      rw [utf8DecodeGo]
      have hstep : utf8Step (192 + c.toNat / 64) ((128 + c.toNat % 64) :: rest) =
          (c, 1) := by
        have e0 : ((128 + c.toNat % 64) :: rest).getD 0 0 = 128 + c.toNat % 64 := rfl
        rw [utf8Step, if_neg (by omega), if_neg (by omega), if_pos (by omega), e0,
          if_pos (by omega)]
        have harith : (192 + c.toNat / 64 - 192) * 64 + (128 + c.toNat % 64 - 128) =
            c.toNat := by omega
        rw [harith, Char.ofNat_toNat]
      rw [hstep]
      simp
    · by_cases h3 : c.toNat < 65536
      · rw [utf8EncodeChar, if_neg h1, if_neg h2, if_pos h3]
        simp only [List.cons_append, List.nil_append]
        rw [utf8DecodeGo]
        have hstep : utf8Step (224 + c.toNat / 4096)
            ((128 + c.toNat / 64 % 64) :: (128 + c.toNat % 64) :: rest) = (c, 2) := by
          have e0 : ((128 + c.toNat / 64 % 64) :: (128 + c.toNat % 64) :: rest).getD 0 0 =
              128 + c.toNat / 64 % 64 := rfl
          have e1 : ((128 + c.toNat / 64 % 64) :: (128 + c.toNat % 64) :: rest).getD 1 0 =
              128 + c.toNat % 64 := rfl
          rw [utf8Step, if_neg (by omega), if_neg (by omega), if_neg (by omega),
            if_pos (by omega), e0, e1, if_pos (by omega)]
          have harith : (224 + c.toNat / 4096 - 224) * 4096 +
              (128 + c.toNat / 64 % 64 - 128) * 64 + (128 + c.toNat % 64 - 128) =
              c.toNat := by omega
          rw [harith, Char.ofNat_toNat]
        rw [hstep]
        simp
      · rw [utf8EncodeChar, if_neg h1, if_neg h2, if_neg h3]
        simp only [List.cons_append, List.nil_append]
        rw [utf8DecodeGo]
        have hstep : utf8Step (240 + c.toNat / 262144)
            ((128 + c.toNat / 4096 % 64) :: (128 + c.toNat / 64 % 64) ::
              (128 + c.toNat % 64) :: rest) = (c, 3) := by
          have e0 : ((128 + c.toNat / 4096 % 64) :: (128 + c.toNat / 64 % 64) ::
              (128 + c.toNat % 64) :: rest).getD 0 0 = 128 + c.toNat / 4096 % 64 := rfl
          have e1 : ((128 + c.toNat / 4096 % 64) :: (128 + c.toNat / 64 % 64) ::
              (128 + c.toNat % 64) :: rest).getD 1 0 = 128 + c.toNat / 64 % 64 := rfl
          have e2 : ((128 + c.toNat / 4096 % 64) :: (128 + c.toNat / 64 % 64) ::
              (128 + c.toNat % 64) :: rest).getD 2 0 = 128 + c.toNat % 64 := rfl
          rw [utf8Step, if_neg (by omega), if_neg (by omega), if_neg (by omega),
            if_neg (by omega), if_pos (by omega), e0, e1, e2, if_pos (by omega)]
          have harith : (240 + c.toNat / 262144 - 240) * 262144 +
              (128 + c.toNat / 4096 % 64 - 128) * 4096 +
              (128 + c.toNat / 64 % 64 - 128) * 64 + (128 + c.toNat % 64 - 128) =
              c.toNat := by omega
          rw [harith, Char.ofNat_toNat]
        rw [hstep]
        simp

theorem utf8DecodeGo_encodeList (s : List Char) (fuel : Nat) (rest : List Nat) :
    utf8DecodeGo (s.length + fuel) (utf8Encode s ++ rest) =
      s ++ utf8DecodeGo fuel rest := by
  induction s with
  | nil => simp [utf8Encode]
  | cons c s ih =>
    have hfl : (c :: s).length + fuel = (s.length + fuel) + 1 := by
      simp
      omega
    have henc : utf8Encode (c :: s) = utf8EncodeChar c ++ utf8Encode s := by
      simp [utf8Encode]
    rw [hfl, henc, List.append_assoc, utf8DecodeGo_encodeChar, ih]
    rfl

theorem utf8EncodeChar_length_pos (c : Char) : 1 ≤ (utf8EncodeChar c).length := by
  rw [utf8EncodeChar]
  split
  · simp
  · split
    · simp
    · split <;> simp

theorem length_le_utf8Encode_length (s : List Char) :
    s.length ≤ (utf8Encode s).length := by
  induction s with
  | nil => simp [utf8Encode]
  | cons c s ih =>
    have := utf8EncodeChar_length_pos c
    simp only [utf8Encode, List.flatMap_cons, List.length_append, List.length_cons] at ih ⊢
    omega

theorem utf8DecodeGo_nil (fuel : Nat) : utf8DecodeGo fuel [] = [] := by
  cases fuel <;> rfl

/-- Decoding an encoded string gives the string back. -/
theorem utf8Decode_encode (s : List Char) : utf8Decode (utf8Encode s) = s := by
  have hlen := length_le_utf8Encode_length s
  have h := utf8DecodeGo_encodeList s ((utf8Encode s).length - s.length) []
  rw [List.append_nil, utf8DecodeGo_nil, List.append_nil] at h
  rw [utf8Decode]
  rw [show (utf8Encode s).length = s.length + ((utf8Encode s).length - s.length) by omega]
  exact h

/-! ## The frame codec (`IpcTransport.send`, lines 429-445, and the
`readable` handler of `IpcTransport.connect`, lines 348-421)

Bytes are `Nat` lists (each entry a byte value).  `writeUInt32LE` /
`readUInt32LE` model the `Buffer` methods of the same names. -/

/-- `IPC_OPERATION` (ipcTransport.ts lines 215-221). -/
inductive IPC_OPERATION where
  | HANDSHAKE
  | FRAME
  | CLOSE
  | PING
  | PONG

/-- The numeric value of the enum member. -/
def IPC_OPERATION.code : IPC_OPERATION → Nat
  | .HANDSHAKE => 0
  | .FRAME => 1
  | .CLOSE => 2
  | .PING => 3
  | .PONG => 4

/-- `Buffer.writeUInt32LE v`: the four little-endian bytes of `v` (the
source only ever writes values below `2^32`). -/
def writeUInt32LE (v : Nat) : List Nat :=
  [v % 256, v / 256 % 256, v / 65536 % 256, v / 16777216 % 256]

/-- `Buffer.readUInt32LE` at offset `off`. -/
def readUInt32LE (l : List Nat) (off : Nat) : Nat :=
  l.getD off 0 + 256 * l.getD (off + 1) 0 + 65536 * l.getD (off + 2) 0 +
    16777216 * l.getD (off + 3) 0

/-- The payload buffer of `send` (line 436-438):
`payload ? Buffer.from(JSON.stringify(payload)) : Buffer.alloc(0)`.
A missing (`none`) or falsy payload yields an empty buffer. -/
def sendPayloadBytes : Option Json → List Nat
  | some j => if jsTruthyJson j then utf8Encode (stringifyChars j) else []
  | none => []

/-- The full buffer written by `IpcTransport.send` (lines 436-444): an
8-byte header — little-endian operation code, then little-endian payload
byte length — followed by the payload bytes. -/
def sendBytes (op : Nat) (payload : Option Json) : List Nat :=
  writeUInt32LE op ++ writeUInt32LE (sendPayloadBytes payload).length ++
    sendPayloadBytes payload

/-- One decode attempt of the `readable` handler (lines 368-397) on the
drained buffer `data`:

* fewer than 8 bytes: no data at all is silently ignored (line 369), any
  other short buffer is a malformed packet;
* the total length must equal `readUInt32LE(data, 4) + 8` (line 380);
* the payload bytes must parse as JSON after UTF-8 text decoding
  (line 390, `JSON.parse(data.subarray(8, length + 8).toString())`). -/
inductive DecodeResult where
  | noData
  | malformed
  | frame (op : Nat) (payload : Json)

def decodeCycle (data : List Nat) : DecodeResult :=
  if data.length < 8 then
    if data.length = 0 then .noData else .malformed
  else if data.length ≠ readUInt32LE data 4 + 8 then .malformed
  else
    match jsonParse (utf8Decode ((data.drop 8).take (readUInt32LE data 4))) with
    | none => .malformed
    | some j => .frame (readUInt32LE data 0) j

/-- Observable effects of one `readable` cycle: events emitted on the
transport / client and the `send` calls made (operation code and payload
value). -/
inductive Ev where
  | debugMalformed
  | debugFrame (op : Nat) (payload : Json)
  | message (payload : Json)
  | closeEv (payload : Json)
  | ping

structure CycleOut where
  events : List Ev
  sends : List (Nat × Option Json)

/-- The dispatch of the `readable` handler (lines 368-421) on one drained
buffer: decode, then switch on the operation code (`FRAME` re-emits the
payload as a message — the `if (!data) break` on line 407 is dead code, a
`Buffer` is always truthy; `CLOSE` emits close; `PING` sends a PONG echoing
the parsed payload and emits a bare ping; anything else only logs). -/
def readCycle (data : List Nat) : CycleOut :=
  match decodeCycle data with
  | .noData => ⟨[], []⟩
  | .malformed => ⟨[.debugMalformed], []⟩
  | .frame op j =>
    if op = 1 then ⟨[.debugFrame op j, .message j], []⟩
    else if op = 2 then ⟨[.debugFrame op j, .closeEv j], []⟩
    else if op = 3 then ⟨[.debugFrame op j, .ping], [(4, some j)]⟩
    else ⟨[.debugFrame op j], []⟩

theorem readUInt32LE_here (a b c d : Nat) (l : List Nat) :
    readUInt32LE (a :: b :: c :: d :: l) 0 = a + 256 * b + 65536 * c + 16777216 * d := rfl

theorem readUInt32LE_writeHeader_zero {a : Nat} (b : Nat) (l : List Nat)
    (ha : a < 4294967296) :
    readUInt32LE (writeUInt32LE a ++ (writeUInt32LE b ++ l)) 0 = a := by
  simp only [writeUInt32LE, List.cons_append, List.nil_append, readUInt32LE_here]
  omega

theorem readUInt32LE_writeHeader_four (a : Nat) {b : Nat} (l : List Nat)
    (hb : b < 4294967296) :
    readUInt32LE (writeUInt32LE a ++ (writeUInt32LE b ++ l)) 4 = b := by
  have e : readUInt32LE (writeUInt32LE a ++ (writeUInt32LE b ++ l)) 4 =
      readUInt32LE (writeUInt32LE b ++ l) 0 := rfl
  rw [e]
  simp only [writeUInt32LE, List.cons_append, List.nil_append, readUInt32LE_here]
  omega

/-- A well-formed frame as the peer sends it: 8-byte header, then the UTF-8
bytes of the JSON serialisation of `p`. -/
def serverFrame (op : Nat) (p : Json) : List Nat :=
  writeUInt32LE op ++ writeUInt32LE (utf8Encode (stringifyChars p)).length ++
    utf8Encode (stringifyChars p)

theorem decodeCycle_serverFrame (op : Nat) (p : Json) (hop : op < 4294967296)
    (hlen : (utf8Encode (stringifyChars p)).length < 4294967296) :
    decodeCycle (serverFrame op p) = .frame op p := by
  have hdata : serverFrame op p =
      writeUInt32LE op ++ (writeUInt32LE (utf8Encode (stringifyChars p)).length ++
        utf8Encode (stringifyChars p)) := by
    simp [serverFrame]
  have hlen8 : (writeUInt32LE op ++ (writeUInt32LE (utf8Encode (stringifyChars p)).length ++
      utf8Encode (stringifyChars p))).length = (utf8Encode (stringifyChars p)).length + 8 := by
    simp [writeUInt32LE]
    try omega
  have h4 := readUInt32LE_writeHeader_four op (utf8Encode (stringifyChars p)) hlen
  have h0 := readUInt32LE_writeHeader_zero (utf8Encode (stringifyChars p)).length
    (utf8Encode (stringifyChars p)) hop
  have hdrop : (writeUInt32LE op ++ (writeUInt32LE (utf8Encode (stringifyChars p)).length ++
      utf8Encode (stringifyChars p))).drop 8 = utf8Encode (stringifyChars p) := by
    simp [writeUInt32LE]
  rw [hdata, decodeCycle, if_neg (by omega), h4, if_neg (by omega), hdrop,
    List.take_length, utf8Decode_encode, jsonParse_stringify, h0]

/-- Decoding what `send` writes for a truthy payload recovers the operation
and the payload. -/
theorem decodeCycle_sendBytes (op : Nat) (p : Json) (hop : op < 4294967296)
    (ht : jsTruthyJson p = true)
    (hlen : (utf8Encode (stringifyChars p)).length < 4294967296) :
    decodeCycle (sendBytes op (some p)) = .frame op p := by
  have hpb : sendBytes op (some p) = serverFrame op p := by
    simp [sendBytes, serverFrame, sendPayloadBytes, ht]
  rw [hpb]
  exact decodeCycle_serverFrame op p hop hlen

theorem IPC_OPERATION_code_lt (op : IPC_OPERATION) : op.code < 4294967296 := by
  cases op <;> decide

/-! ## Claim theorems: frame codec and read cycle -/

/-- C1, counterexample: the round trip fails as universally stated.  The
JSON-serializable payload `false` is falsy, so `send` (line 436) emits an
empty payload buffer; decoding the resulting 8-byte frame attempts
`JSON.parse("")`, which throws, so the read handler reports a malformed
packet instead of returning `FRAME`/`false`. -/
theorem c1_roundtrip_counterexample :
    decodeCycle (sendBytes IPC_OPERATION.FRAME.code (some (Json.bool false))) =
        DecodeResult.malformed ∧
      decodeCycle (sendBytes IPC_OPERATION.FRAME.code (some (Json.bool false))) ≠
        DecodeResult.frame IPC_OPERATION.FRAME.code (Json.bool false) :=
  ⟨rfl, fun h => DecodeResult.noConfusion h⟩

/-- C1 (amended): for every valid operation code and every *truthy*
JSON-serializable payload (a falsy payload — `false`, `0`, `""`, `null` —
is treated by `send` as absent), decoding the bytes produced by encoding
(8-byte header plus UTF-8 JSON payload as built by `send`, parsed as by the
read loop) yields the same operation code and a structurally equal payload.
(The payload's byte length must fit the 32-bit length field, as it always
does for real buffers.) -/
theorem c1_roundtrip (op : IPC_OPERATION) (p : Json)
    (ht : jsTruthyJson p = true)
    (hlen : (utf8Encode (stringifyChars p)).length < 4294967296) :
    decodeCycle (sendBytes op.code (some p)) = DecodeResult.frame op.code p :=
  decodeCycle_sendBytes op.code p (IPC_OPERATION_code_lt op) ht hlen

/-- Witness for C1 at `op = FRAME`, `p = 1`. -/
theorem c1_roundtrip_witness :
    jsTruthyJson (Json.num 1) = true ∧
      (utf8Encode (stringifyChars (Json.num 1))).length < 4294967296 ∧
      decodeCycle (sendBytes IPC_OPERATION.FRAME.code (some (Json.num 1))) =
        DecodeResult.frame IPC_OPERATION.FRAME.code (Json.num 1) :=
  ⟨rfl, by decide, c1_roundtrip IPC_OPERATION.FRAME (Json.num 1) rfl (by decide)⟩

/-- C2, counterexample: `encode(op)` with no payload does produce exactly
8 bytes, but decoding those 8 bytes does NOT succeed: the empty payload is
passed to `JSON.parse("")`, which throws, so the handler emits the
malformed-packet diagnostic instead of yielding the operation. -/
theorem c2_empty_counterexample :
    (sendBytes IPC_OPERATION.FRAME.code none).length = 8 ∧
      decodeCycle (sendBytes IPC_OPERATION.FRAME.code none) = DecodeResult.malformed :=
  ⟨rfl, rfl⟩

/-- C2 (amended): encoding an operation with no payload produces exactly
8 bytes (header with payload length 0), but decoding exactly those 8 bytes
*fails*: the zero-length payload does not parse as JSON, so the read
handler reports a malformed packet and produces no frame. -/
theorem c2_empty_payload (op : IPC_OPERATION) :
    (sendBytes op.code none).length = 8 ∧
      sendBytes op.code none = writeUInt32LE op.code ++ writeUInt32LE 0 ∧
      decodeCycle (sendBytes op.code none) = DecodeResult.malformed ∧
      readCycle (sendBytes op.code none) = ⟨[Ev.debugMalformed], []⟩ := by
  cases op <;> exact ⟨rfl, rfl, rfl, rfl⟩

/-- C3: the read handler reports a malformed packet (and produces no frame
event and no send) exactly when the drained bytes are a non-empty buffer of
fewer than 8 bytes, or the total length differs from `8 + declared length`,
or the payload bytes do not parse as JSON after the handler's UTF-8 text
decoding (`data.subarray(8, length + 8).toString()` then `JSON.parse`).
Exactly 0 bytes is treated as no data: the handler returns silently. -/
theorem c3_malformed_iff (data : List Nat) :
    (readCycle data = ⟨[Ev.debugMalformed], []⟩ ↔
      ((data.length ≠ 0 ∧ data.length < 8) ∨
        (8 ≤ data.length ∧ data.length ≠ readUInt32LE data 4 + 8) ∨
        (8 ≤ data.length ∧ data.length = readUInt32LE data 4 + 8 ∧
          jsonParse (utf8Decode ((data.drop 8).take (readUInt32LE data 4))) = none))) ∧
      readCycle [] = ⟨[], []⟩ := by
  constructor
  · rw [readCycle, decodeCycle]
    by_cases h1 : data.length < 8
    · rw [if_pos h1]
      by_cases h2 : data.length = 0
      · rw [if_pos h2]
        simp [h1, h2]
      · rw [if_neg h2]
        simp [h1, h2]
    · rw [if_neg h1]
      by_cases h3 : data.length = readUInt32LE data 4 + 8
      · rw [if_neg (by omega)]
        cases hp : jsonParse (utf8Decode ((data.drop 8).take (readUInt32LE data 4))) with
        | none =>
          simp [h1, h3, hp]
        | some j =>
          simp only []
          constructor
          · intro h
            exfalso
            split at h <;> (try split at h) <;> (try split at h) <;> simp_all
          · intro h
            exfalso
            rcases h with h | h | h
            · omega
            · omega
            · exact Option.noConfusion h.2.2
      · rw [if_pos (by omega)]
        simp [h3]
        omega
  · rfl

/-- C4, counterexample: the PONG does not always echo the PING payload
unchanged on the wire.  The PING frame carrying the JSON payload `0` is
valid (its byte `"0"` parses), the handler makes exactly one send call
`send(PONG, 0)` — but the parsed payload `0` is falsy, so the line-436
ternary of `send` writes a payload-less 8-byte PONG instead of a frame
whose payload bytes repeat the received `"0"`. -/
theorem c4_ping_echo_counterexample :
    (readCycle (serverFrame IPC_OPERATION.PING.code (Json.num 0))).sends =
        [(IPC_OPERATION.PONG.code, some (Json.num 0))] ∧
      sendBytes IPC_OPERATION.PONG.code (some (Json.num 0)) =
        writeUInt32LE IPC_OPERATION.PONG.code ++ writeUInt32LE 0 ∧
      sendBytes IPC_OPERATION.PONG.code (some (Json.num 0)) ≠
        serverFrame IPC_OPERATION.PONG.code (Json.num 0) :=
  ⟨rfl, rfl, by decide⟩

/-- C4 (amended): feeding one valid PING frame (payload `p`) into the read
loop makes exactly one send call — a PONG whose argument is the parsed
PING payload, unchanged — and emits exactly one ping notification carrying
no payload (besides the handler's decode debug log, no other event).  The
bytes that send then writes echo the PING's payload bytes only when the
parsed payload is truthy; a falsy payload (`0`, `false`, `""`, `null`) is
dropped by send's ternary, so the written PONG carries no payload. -/
theorem c4_ping_autoreply (p : Json)
    (hlen : (utf8Encode (stringifyChars p)).length < 4294967296) :
    readCycle (serverFrame IPC_OPERATION.PING.code p) =
        ⟨[Ev.debugFrame IPC_OPERATION.PING.code p, Ev.ping],
          [(IPC_OPERATION.PONG.code, some p)]⟩ ∧
      (jsTruthyJson p = true →
        sendBytes IPC_OPERATION.PONG.code (some p) =
          serverFrame IPC_OPERATION.PONG.code p) := by
  constructor
  · rw [readCycle, decodeCycle_serverFrame IPC_OPERATION.PING.code p (by decide) hlen]
    rfl
  · intro ht
    simp [sendBytes, serverFrame, sendPayloadBytes, ht]

/-- Witness for C4 at the truthy payload `p = 1`. -/
theorem c4_ping_autoreply_witness :
    (utf8Encode (stringifyChars (Json.num 1))).length < 4294967296 ∧
      readCycle (serverFrame IPC_OPERATION.PING.code (Json.num 1)) =
        ⟨[Ev.debugFrame IPC_OPERATION.PING.code (Json.num 1), Ev.ping],
          [(IPC_OPERATION.PONG.code, some (Json.num 1))]⟩ ∧
      sendBytes IPC_OPERATION.PONG.code (some (Json.num 1)) =
        serverFrame IPC_OPERATION.PONG.code (Json.num 1) :=
  ⟨by decide, (c4_ping_autoreply (Json.num 1) (by decide)).1,
    (c4_ping_autoreply (Json.num 1) (by decide)).2 rfl⟩

/-! ## Transport state: send without a connection, close convergence -/

/-- The transport's connection state: `socket = true` models
`this.socket !== undefined`. -/
structure TransportState where
  socket : Bool

/-- `IpcTransport.send` (lines 429-445): the frame buffer is always built,
but written through `this.socket?.write(...)` — with no socket the optional
chaining makes the write a no-op.  The call returns normally (nothing is
thrown), the transport state is untouched, and nothing is queued.  The
returned list is the bytes actually written to the stream. -/
def sendOp (st : TransportState) (op : Nat) (payload : Option Json) :
    TransportState × List Nat :=
  (st, if st.socket then sendBytes op payload else [])

/-- C7: a `send` with no live connection is a silent no-op — no bytes are
written, the state is unchanged (no queueing), and the function is total
(no error is raised). -/
theorem c7_send_without_connection (op : Nat) (payload : Option Json) :
    sendOp ⟨false⟩ op payload = (⟨false⟩, []) := rfl

/-- The `close` listener that `connect` registers on the transport
(lines 423-426): clear the socket reference and forward the reason to the
client as one close notification.  The returned list is the sequence of
close notifications the client receives. -/
def onTransportClose (st : TransportState) (reason : Json) :
    TransportState × List Json :=
  ({ socket := false }, [reason])

/-- Dispatch of a received CLOSE frame (lines 411-414):
`this.emit("close", parsedData)` reaches exactly the one listener above. -/
def handleCloseFrame (st : TransportState) (parsed : Json) :
    TransportState × List Json :=
  onTransportClose st parsed

/-- The fixed local close reason of `IpcTransport.close` (line 458). -/
def closeByClientReason : Json :=
  Json.obj [("code".data, Json.num (-1)), ("message".data, Json.str "Closed by client".data)]

/-- `IpcTransport.close` (lines 451-464): with no socket the promise
resolves immediately and nothing is emitted; otherwise `socket.end()` is
called and, on the socket's `close` event, `emit("close", {code: -1,
message: "Closed by client"})` runs the registered listener (one client
notification, socket cleared) and the socket reference is cleared again. -/
def closeOp (st : TransportState) : TransportState × List Json :=
  if st.socket then onTransportClose st closeByClientReason
  else (st, [])

/-- C5: a received CLOSE frame and a local `close()` converge — each leaves
the transport with no live connection and produces exactly one close
notification carrying a reason; `close()` with no connection completes
immediately with no notification. -/
theorem c5_close_convergence (st : TransportState) (p : Json) :
    (handleCloseFrame st p).1.socket = false ∧
      (handleCloseFrame st p).2 = [p] ∧
      (st.socket = true →
        (closeOp st).1.socket = false ∧ (closeOp st).2 = [closeByClientReason]) ∧
      (st.socket = false → closeOp st = (st, [])) := by
  refine ⟨rfl, rfl, ?_, ?_⟩
  · intro h
    rw [closeOp, if_pos h]
    exact ⟨rfl, rfl⟩
  · intro h
    rw [closeOp, if_neg (by simp [h])]

/-- Witness for C5 at a live state with reason `null`, and at the
disconnected state. -/
theorem c5_close_convergence_witness :
    ((handleCloseFrame ⟨true⟩ Json.null).1.socket = false ∧
        (handleCloseFrame ⟨true⟩ Json.null).2 = [Json.null]) ∧
      ((closeOp ⟨true⟩).1.socket = false ∧ (closeOp ⟨true⟩).2 = [closeByClientReason]) ∧
      closeOp ⟨false⟩ = (⟨false⟩, []) :=
  ⟨⟨(c5_close_convergence ⟨true⟩ Json.null).1,
      (c5_close_convergence ⟨true⟩ Json.null).2.1⟩,
    (c5_close_convergence ⟨true⟩ Json.null).2.2.1 rfl,
    (c5_close_convergence ⟨false⟩ Json.null).2.2.2 rfl⟩

/-- C8, counterexample: a drain holding one complete FRAME (payload `1`)
plus one trailing byte is rejected whole — the handler emits only the
malformed-packet diagnostic (total length ≠ declared length + 8), so the
complete first frame is NOT decoded or dispatched, contrary to the claim
that only the trailing bytes are discarded. -/
theorem c8_trailing_counterexample :
    readCycle (serverFrame IPC_OPERATION.FRAME.code (Json.num 1) ++ [0]) =
      ⟨[Ev.debugMalformed], []⟩ :=
  rfl

/-- C8 (amended): when one read cycle drains a buffer holding exactly one
complete frame followed by trailing bytes, the length check
`data.length !== length + 8` fails and the whole buffer — the complete
first frame included — is discarded with a malformed-packet diagnostic; no
frame is dispatched and nothing is sent. -/
theorem c8_trailing_bytes (op : Nat) (p : Json) (extra : List Nat)
    (hextra : extra ≠ [])
    (hlen : (utf8Encode (stringifyChars p)).length < 4294967296) :
    readCycle (serverFrame op p ++ extra) = ⟨[Ev.debugMalformed], []⟩ := by
  have hex : 1 ≤ extra.length := by
    cases extra with
    | nil => exact absurd rfl hextra
    | cons e es => simp
  have hdata : serverFrame op p ++ extra =
      writeUInt32LE op ++ (writeUInt32LE (utf8Encode (stringifyChars p)).length ++
        (utf8Encode (stringifyChars p) ++ extra)) := by
    simp [serverFrame]
  have h4 := readUInt32LE_writeHeader_four op
    (utf8Encode (stringifyChars p) ++ extra) hlen
  have hlentot : (writeUInt32LE op ++ (writeUInt32LE (utf8Encode (stringifyChars p)).length ++
      (utf8Encode (stringifyChars p) ++ extra))).length =
      (utf8Encode (stringifyChars p)).length + extra.length + 8 := by
    simp [writeUInt32LE]
    try omega
  rw [readCycle, hdata, decodeCycle, if_neg (by omega), h4, if_pos (by omega)]

/-- Witness for C8 at `op = FRAME`, `p = 1`, one trailing zero byte. -/
theorem c8_trailing_bytes_witness :
    ([0] : List Nat) ≠ [] ∧
      (utf8Encode (stringifyChars (Json.num 1))).length < 4294967296 ∧
      readCycle (serverFrame IPC_OPERATION.FRAME.code (Json.num 1) ++ [0]) =
        ⟨[Ev.debugMalformed], []⟩ :=
  ⟨by decide, by decide,
    c8_trailing_bytes IPC_OPERATION.FRAME.code (Json.num 1) [0] (by decide) (by decide)⟩

/-- Witness for C3 at the 3-byte buffer `[1, 2, 3]` (shorter than a header
and non-empty, hence malformed). -/
theorem c3_malformed_iff_witness :
    readCycle [1, 2, 3] = ⟨[Ev.debugMalformed], []⟩ :=
  ((c3_malformed_iff [1, 2, 3]).1).mpr (Or.inl (by decide))

/-! ## Socket discovery (`pathList`, lines 223-275; `getSocket`,
lines 310-336)

The ambient process state the locator reads (`process.platform`, the
environment variables, `fs.realpathSync`, `fs.existsSync`, and which paths
accept a connection) is packaged as an explicit environment, so discovery
is a pure function of it. -/

inductive Platform where
  | win32
  | darwin
  | linux
  | other
deriving DecidableEq

structure LocatorEnv where
  platform : Platform
  xdgRuntimeDir : Option String
  tmpdir : Option String
  tmp : Option String
  temp : Option String
  realpath : String → String
  dirExists : String → Bool
  connects : String → Bool

/-- `XDG_RUNTIME_DIR ?? TMPDIR ?? TMP ?? TEMP ?? path.sep + "tmp"`
(lines 232-237). -/
def envTmpValue (env : LocatorEnv) : String :=
  match env.xdgRuntimeDir with
  | some v => v
  | none =>
    match env.tmpdir with
    | some v => v
    | none =>
      match env.tmp with
      | some v => v
      | none =>
        match env.temp with
        | some v => v
        | none => "/tmp"

/-- The runtime directory: the environment value passed through
`fs.realpathSync` (line 236). -/
def runtimeDir (env : LocatorEnv) : String := env.realpath (envTmpValue env)

/-- One candidate: the path handed to `net.createConnection` and its
parent directory (`path.dirname(socketPath)`), which `getSocket`
pre-checks on non-Windows platforms. -/
structure Candidate where
  path : String
  dir : String

/-- A `pathList` rule: the applicable platforms and the path former. -/
structure PathRule where
  platforms : List Platform
  format : LocatorEnv → Nat → Candidate

/-- `pathList` (lines 223-275), in declaration order: the Windows named
pipe `\\?\pipe\discord-ipc-N`; the Unix runtime-dir socket; the Snap
subdirectory; the Flatpak subdirectory. -/
def pathListRules : List PathRule :=
  [ { platforms := [.win32],
      format := fun _ id =>
        { path := "\\\\?\\pipe\\discord-ipc-" ++ (⟨natToDigits id⟩ : String),
          dir := "\\\\?\\pipe" } },
    { platforms := [.darwin, .linux],
      format := fun env id =>
        { path := runtimeDir env ++ "/discord-ipc-" ++ (⟨natToDigits id⟩ : String),
          dir := runtimeDir env } },
    { platforms := [.linux],
      format := fun env id =>
        { path := runtimeDir env ++ "/snap.discord/discord-ipc-" ++ (⟨natToDigits id⟩ : String),
          dir := runtimeDir env ++ "/snap.discord" } },
    { platforms := [.linux],
      format := fun env id =>
        { path := runtimeDir env ++ "/app/com.discordapp.Discord/discord-ipc-" ++
            (⟨natToDigits id⟩ : String),
          dir := runtimeDir env ++ "/app/com.discordapp.Discord" } } ]

/-- `handleSocketId` (lines 314-327): skip a rule not meant for this
platform; on non-Windows skip a candidate whose parent directory does not
exist; then attempt the connection (`none` models the caught rejection). -/
def handleSocketId (env : LocatorEnv) (rule : PathRule) (id : Nat) : Option String :=
  if rule.platforms.contains env.platform = false then none
  else if (env.platform != Platform.win32) && !env.dirExists (rule.format env id).dir then
    none
  else if env.connects (rule.format env id).path then some ((rule.format env id).path)
  else none

/-- The id loop of `getSocket` (lines 329-332): ids in order, first
success wins. -/
def tryIds (env : LocatorEnv) (rule : PathRule) : List Nat → Option String
  | [] => none
  | i :: is =>
    match handleSocketId env rule i with
    | some s => some s
    | none => tryIds env rule is

/-- The rule loop of `getSocket` (lines 313-335): rules in declaration
order, ids `0`-`9` per rule; when everything fails the locator throws
`Could not connect` (`ConnectionNotFoundError`), modelled as `none`. -/
def getSocketGo (env : LocatorEnv) : List PathRule → Option String
  | [] => none
  | r :: rs =>
    match tryIds env r (List.range 10) with
    | some s => some s
    | none => getSocketGo env rs

def getSocket (env : LocatorEnv) : Option String := getSocketGo env pathListRules

/-- Spec-side description of the attempt order: rules in declaration order
filtered to the platform, ids 0-9 in order, dropping non-Windows candidates
whose parent directory is absent. -/
def ruleCandidates (env : LocatorEnv) (r : PathRule) (ids : List Nat) : List String :=
  (ids.filter fun id =>
    (env.platform == Platform.win32) || env.dirExists (r.format env id).dir).map
    fun id => (r.format env id).path

def candidatesGo (env : LocatorEnv) (rules : List PathRule) : List String :=
  (rules.filter fun r => r.platforms.contains env.platform).flatMap fun r =>
    ruleCandidates env r (List.range 10)

/-- The full ordered candidate list of the locator. -/
def candidatePaths (env : LocatorEnv) : List String := candidatesGo env pathListRules

theorem tryIds_eq_find (env : LocatorEnv) (r : PathRule) (ids : List Nat)
    (hc : r.platforms.contains env.platform = true) :
    tryIds env r ids = (ruleCandidates env r ids).find? env.connects := by
  induction ids with
  | nil => rfl
  | cons i is ih =>
    rw [tryIds, handleSocketId]
    rw [if_neg (by rw [hc]; simp)]
    by_cases hskip : (env.platform != Platform.win32) && !env.dirExists (r.format env i).dir
    · rw [if_pos hskip]
      have hfil : ((env.platform == Platform.win32) ||
          env.dirExists (r.format env i).dir) = false := by
        revert hskip
        cases env.platform <;> cases henv : env.dirExists (r.format env i).dir <;> simp
      simp only [ruleCandidates, List.filter_cons, hfil]
      exact ih
    · rw [if_neg hskip]
      have hfil : ((env.platform == Platform.win32) ||
          env.dirExists (r.format env i).dir) = true := by
        revert hskip
        cases env.platform <;> cases henv : env.dirExists (r.format env i).dir <;> simp
      simp only [ruleCandidates, List.filter_cons, hfil, if_true, List.map_cons]
      by_cases hcon : env.connects (r.format env i).path
      · rw [if_pos hcon, List.find?_cons_of_pos _ hcon]
      · rw [if_neg hcon, List.find?_cons_of_neg _ hcon]
        exact ih

theorem tryIds_eq_none (env : LocatorEnv) (r : PathRule) (ids : List Nat)
    (hc : r.platforms.contains env.platform = false) :
    tryIds env r ids = none := by
  induction ids with
  | nil => rfl
  | cons i is ih =>
    rw [tryIds, handleSocketId, if_pos hc]
    exact ih

theorem getSocketGo_eq_find (env : LocatorEnv) (rules : List PathRule) :
    getSocketGo env rules = (candidatesGo env rules).find? env.connects := by
  induction rules with
  | nil => rfl
  | cons r rs ih =>
    rw [getSocketGo]
    by_cases hc : r.platforms.contains env.platform
    · rw [tryIds_eq_find env r _ hc]
      simp only [candidatesGo, List.filter_cons, hc, if_true, List.flatMap_cons,
        List.find?_append]
      cases hf : (ruleCandidates env r (List.range 10)).find? env.connects with
      | some s => simp
      | none =>
        simp only [Option.none_or]
        exact ih
    · rw [tryIds_eq_none env r _ (by simpa using hc)]
      have hcf : (r.platforms.contains env.platform) = false := by simpa using hc
      simp only [candidatesGo, List.filter_cons, hcf, Bool.false_eq_true, if_false]
      exact ih

/-- C6: socket discovery is the first-match search of the fixed, ordered
candidate list (rules in declaration order, ids 0-9 in order, platform
filter, non-Windows parent-directory pre-check); it fails (throws
`Could not connect`) exactly when no listed candidate accepts a
connection.  Determinism is immediate: for a fixed environment the result
is a pure function of it. -/
theorem c6_locator_order (env : LocatorEnv) :
    getSocket env = (candidatePaths env).find? env.connects ∧
      (getSocket env = none ↔ ∀ p ∈ candidatePaths env, env.connects p = false) := by
  have h := getSocketGo_eq_find env pathListRules
  refine ⟨h, ?_⟩
  rw [getSocket, h]
  simp [candidatePaths, List.find?_eq_none]

/-! ## `Client.setActivity` / `Client.clearActivity` (client.ts lines
29-108 and 137-203)

`number | Date` timestamps are modelled as integers (a `Date` stands for
its epoch value); `ActivityType` is its numeric enum value
(Playing 0, Listening 2, Watching 3, Competing 5). -/

structure ActivityTimestamps where
  start : Option Int
  end_ : Option Int

structure ActivityAssets where
  large_image : Option String
  large_text : Option String
  small_image : Option String
  small_text : Option String

structure ActivityButton where
  label : String
  url : String

structure Activity where
  state : Option String
  details : Option String
  timestamps : Option ActivityTimestamps
  assets : Option ActivityAssets
  buttons : Option (List ActivityButton)
  type : Option Nat

/-- JS truthiness of an optional string property: present and non-empty. -/
def truthyStr : Option String → Bool
  | none => false
  | some s => s != ""

/-- JS truthiness of an optional numeric property: present and non-zero. -/
def truthyInt : Option Int → Bool
  | none => false
  | some n => n != 0

/-- Number of present fields, as counted by `Object.entries(...).length`. -/
def countOpt {α : Type} : Option α → Nat
  | none => 0
  | some _ => 1

/-- The `cleaned` object `setActivity` builds (lines 146-191): truthy
strings copied, timestamp/asset objects rebuilt field-by-field when any
field is present, buttons re-created as `{label, url}` pairs, and the
activity type normalised — a truthy (non-Playing) type that is a member of
`[Playing, Listening, Watching, Competing]` is overwritten with `Playing`.
The source computes this value and then never uses it (see line 195). -/
def cleanedActivity (a : Activity) : Activity :=
  { state := if truthyStr a.state then a.state else none,
    details := if truthyStr a.details then a.details else none,
    timestamps :=
      match a.timestamps with
      | some ts =>
        if countOpt ts.start + countOpt ts.end_ > 0 then
          some { start := if truthyInt ts.start then ts.start else none,
                 end_ := if truthyInt ts.end_ then ts.end_ else none }
        else none
      | none => none,
    assets :=
      match a.assets with
      | some asts =>
        if countOpt asts.large_image + countOpt asts.large_text +
            countOpt asts.small_image + countOpt asts.small_text > 0 then
          some { large_image := if truthyStr asts.large_image then asts.large_image else none,
                 large_text := if truthyStr asts.large_text then asts.large_text else none,
                 small_image := if truthyStr asts.small_image then asts.small_image else none,
                 small_text := if truthyStr asts.small_text then asts.small_text else none }
        else none
      | none => none,
    buttons :=
      match a.buttons with
      | some bs =>
        if bs.length > 0 then some (bs.map fun b => { label := b.label, url := b.url })
        else none
      | none => none,
    type :=
      match a.type with
      | some t =>
        if t ≠ 0 then (if t = 0 ∨ t = 2 ∨ t = 3 ∨ t = 5 then some 0 else some t)
        else none
      | none => none }

/-- Truthiness of `pid ?? process` (lines 194 and 201): an absent `pid`
falls back to the `process` object, which is truthy; a number is falsy
exactly when it is `0` (or `NaN`, outside the integer model). -/
def pidArgTruthy : Option Int → Bool
  | none => true
  | some p => p != 0

/-- The `pid` value sent on the wire:
`(pid ?? process) ? (process.pid ?? 0) : 0`. -/
def sentPid (pidArg : Option Int) (processPid : Option Int) : Int :=
  if pidArgTruthy pidArg then processPid.getD 0 else 0

structure SetActivityArgs where
  pid : Int
  activity : Activity

/-- The `args` of the SET_ACTIVITY request (lines 193-196): the computed
`pid`, and — decisive for C10 — the ORIGINAL `activity` argument
(line 195 passes `activity`, not `cleaned`). -/
def setActivityArgs (a : Activity) (pidArg : Option Int) (processPid : Option Int) :
    SetActivityArgs :=
  { pid := sentPid pidArg processPid, activity := a }

/-- The `args` of the CLEAR_ACTIVITY request (lines 200-202): `{ pid }`. -/
def clearActivityArgs (pidArg : Option Int) (processPid : Option Int) : Int :=
  sentPid pidArg processPid

/-- C9, counterexample: with an explicit `pid` argument of `0` and
`process.pid = 1234`, the sent pid is `0`, not the current process's pid —
`(pid ?? process)` is then falsy and the ternary takes its `0` branch. -/
theorem c9_pid_counterexample :
    (setActivityArgs ⟨none, none, none, none, none, none⟩ (some 0) (some 1234)).pid = 0 ∧
      (setActivityArgs ⟨none, none, none, none, none, none⟩ (some 0) (some 1234)).pid ≠
        (some (1234 : Int)).getD 0 :=
  ⟨rfl, by decide⟩

/-- C9 (amended): for every `setActivity`/`clearActivity` call whose `pid`
argument is absent or non-zero, the `pid` field sent is the current
process's pid (or 0 when that is absent), so the argument value itself
never reaches the wire; a `pid` argument of `0` (falsy) makes the sent pid
`0` regardless of the process pid. -/
theorem c9_pid_ignored (a : Activity) (pidArg processPid : Option Int) :
    (pidArgTruthy pidArg = true →
      (setActivityArgs a pidArg processPid).pid = processPid.getD 0 ∧
        clearActivityArgs pidArg processPid = processPid.getD 0) ∧
      (pidArgTruthy pidArg = false →
        (setActivityArgs a pidArg processPid).pid = 0 ∧
          clearActivityArgs pidArg processPid = 0) := by
  constructor
  · intro h
    constructor <;> simp [setActivityArgs, clearActivityArgs, sentPid, h]
  · intro h
    constructor <;> simp [setActivityArgs, clearActivityArgs, sentPid, h]

/-- Witness for C9 at `pid = 5`, `process.pid = 42` (truthy branch) and
`pid = 0` (falsy branch). -/
theorem c9_pid_ignored_witness :
    ((setActivityArgs ⟨none, none, none, none, none, none⟩ (some 5) (some 42)).pid =
        (some (42 : Int)).getD 0) ∧
      (setActivityArgs ⟨none, none, none, none, none, none⟩ (some 0) (some 42)).pid = 0 :=
  ⟨((c9_pid_ignored ⟨none, none, none, none, none, none⟩ (some 5) (some 42)).1 rfl).1,
    ((c9_pid_ignored ⟨none, none, none, none, none, none⟩ (some 0) (some 42)).2 rfl).1⟩

/-- C10: the `args.activity` field of the sent FRAME payload is the
original `activity` argument verbatim; the `cleaned` copy (which is a
genuinely different value for some inputs, e.g. a `Competing` type is
normalised to `Playing`) never affects what is sent. -/
theorem c10_activity_sent_verbatim (a : Activity) (pidArg processPid : Option Int) :
    (setActivityArgs a pidArg processPid).activity = a ∧
      ∃ b : Activity, cleanedActivity b ≠ b := by
  refine ⟨rfl, ⟨⟨none, none, none, none, none, some 5⟩, ?_⟩⟩
  intro h
  have hty := congrArg Activity.type h
  simp [cleanedActivity] at hty

/-- Witness for C6 in a Linux environment where no candidate directory
exists: discovery fails with the connection-not-found error. -/
theorem c6_locator_order_witness :
    getSocket ⟨Platform.linux, none, none, none, none, id, fun _ => false, fun _ => false⟩ =
      none :=
  (c6_locator_order _).2.mpr (fun _ _ => rfl)
